import Mathlib

/-!
Verification of the address-parsing and entity-reconciliation core of the
data-processor (file data-processor/addresses.py, class Addresses).

The embedding translates the Python source directly:
* Python strings are Lean `String`s; `str.split()` is modelled as a
  whitespace tokenizer producing the maximal non-space runs; `str.upper`
  maps ASCII letters to upper case, as Python does on this data.
* The `re.sub` that removes a leading "Shipping Address:" / "Billing
  Address:" label (case-insensitive) is modelled by a small explicit
  matcher with the same alternation and whitespace semantics.
* Python exceptions inside `parse_address` (only `parts[-1]` on an empty
  list can raise) are modelled by the `none` result of the surrounding
  `try/except`, per the source's catch-all.
* The persistence layer is outside this repository (psycopg2/Postgres).
  Modelled from the spec: the address upsert keyed on
  (line1, city, state, postal_code) updates line2/country on conflict and
  returns the row id (spec section 4.2 step 3 and section 6 persistence
  contract); the link upsert is keyed on order_id with last-write-wins
  (spec section 4.2 step 5); `conn.commit`/`conn.rollback` make the
  working state durable / reset it to the committed state.
-/

/-- Whitespace characters recognized by Python `str.split()` and `\s`. -/
def isPySpace (c : Char) : Bool :=
  c = ' ' || c = '\t' || c = '\n' || c = '\r' || c = '\x0b' || c = '\x0c'

/-- Worker for the whitespace split: `cur` is the reversed current token. -/
def splitAux : List Char → List Char → List (List Char)
  | [], [] => []
  | [], c :: cur => [(c :: cur).reverse]
  | c :: cs, cur =>
    if isPySpace c then
      match cur with
      | [] => splitAux cs []
      | d :: cur1 => (d :: cur1).reverse :: splitAux cs []
    else splitAux cs (c :: cur)

/-- Python `str.split()` on a character list: maximal runs of non-space
characters, empties discarded. -/
def splitChars (cs : List Char) : List (List Char) :=
  splitAux cs []

/-- `addr_str.split()` from the source. -/
def pySplit (s : String) : List String :=
  (splitChars s.data).map (fun t => ⟨t⟩)

/-- Python `str.upper()` (ASCII). -/
def pyUpper (s : String) : String :=
  ⟨s.data.map Char.toUpper⟩

/-- Case-insensitive character comparison used by `re.IGNORECASE`. -/
def charLowEq (a b : Char) : Bool :=
  a.toLower = b.toLower

/-- Case-insensitive literal match: on success returns the rest of the text. -/
def matchCI : List Char → List Char → Option (List Char)
  | [], cs => some cs
  | _ :: _, [] => none
  | p :: ps, c :: cs => if charLowEq c p then matchCI ps cs else none

/-- One alternative of the anchored pattern
`(word)\s+Address:\s*` matched case-insensitively at the start of `cs`;
returns the text after the match. -/
def matchLabel (word : String) (cs : List Char) : Option (List Char) :=
  match matchCI word.data cs with
  | some rest =>
    match rest with
    | c :: rest2 =>
      if isPySpace c then
        match matchCI "address:".data (rest2.dropWhile isPySpace) with
        | some rest3 => some (rest3.dropWhile isPySpace)
        | none => none
      else none
    | [] => none
  | none => none

/-- The source's
`re.sub(r"^(Shipping|Billing)\s+Address:\s*", "", addr_str, flags=re.IGNORECASE)`. -/
def stripLabel (s : String) : String :=
  match matchLabel "shipping" s.data with
  | some r => ⟨r⟩
  | none =>
    match matchLabel "billing" s.data with
    | some r => ⟨r⟩
    | none => s

/-- `postal_code.split('-')[0]`: the part before the first hyphen. -/
def beforeHyphen (s : String) : String :=
  ⟨s.data.takeWhile (fun c => c ≠ '-')⟩

/-- Lines 136-138 of the source: ZIP+4 truncation. -/
def hyphenTrunc (s : String) : String :=
  if s.data.contains '-' then beforeHyphen s else s

/-- `' '.join` on character lists. -/
def joinChars : List (List Char) → List Char
  | [] => []
  | [t] => t
  | t :: ts => t ++ ' ' :: joinChars ts

/-- Python `' '.join(parts)`. -/
def joinSpace (ts : List String) : String :=
  ⟨joinChars (ts.map String.data)⟩

/-- Line 148 of the source. -/
def streetIdentifiers : List String :=
  ["DR", "ST", "AVE", "BLVD", "RD", "LN", "CT", "WAY"]

/-- The loop of lines 153-156: `split_index` after scanning all words,
starting from index `i` with current value `acc`; the last match wins. -/
def lastIdxAux : List String → Nat → Option Nat → Option Nat
  | [], _, acc => acc
  | w :: ws, i, acc =>
    lastIdxAux ws (i + 1) (if w ∈ streetIdentifiers then some (i + 1) else acc)

/-- Lines 146-162 of the source: split the street region (the remaining
parts) into `address_line1` and optional `address_line2`.  The region is
re-joined and re-split exactly as the source does, and the Python
truthiness test `if split_index:` is preserved. -/
def splitStreet (parts : List String) : String × Option String :=
  let remaining := joinSpace parts
  let address_parts := pySplit remaining
  match lastIdxAux address_parts 0 none with
  | some n =>
    if n ≠ 0 then
      (joinSpace (address_parts.take n),
        if n < address_parts.length then some (joinSpace (address_parts.drop n)) else none)
    else (remaining, none)
  | none => (remaining, none)

/-- Lines 133-134 of the source, on the reversed token list:
`if parts[-2:] == ["United", "States"]: parts = parts[:-2]`. -/
def stripCountryRev (rev : List String) : List String :=
  match rev with
  | "States" :: "United" :: rest => rest
  | _ => rev

/-- The role tag attached to a raw address reference. -/
inductive Role
  | shipping
  | billing
deriving DecidableEq

/-- The parsed result tuple
`(address_line1, address_line2, city, state, postal_code, country)`. -/
structure AddressComponents where
  line1 : String
  line2 : Option String
  city : String
  state : String
  postal_code : String
  country : String
deriving DecidableEq

/-- Lines 129-171 of the source, applied to the label-stripped string:
tokenize, strip a trailing "United States", then extract postal code,
state and city from the right and split the remaining street region.
The right-to-left extraction `parts[-1]` / `parts = parts[:-1]` is
phrased on the reversed token list; when fewer than three tokens remain
the source's `parts[-1]` raises `IndexError`, which the catch-all of
lines 172-174 converts to `None`. -/
def parse_core (s1 : String) : Option AddressComponents :=
  let parts := pySplit s1
  let country := "United States"
  let partsRev := stripCountryRev parts.reverse
  match partsRev with
  | postalTok :: stateTok :: cityTok :: restRev =>
    let postal_code := hyphenTrunc postalTok
    let res := splitStreet restRev.reverse
    some ⟨res.1, res.2, cityTok, stateTok, postal_code, country⟩
  | _ => none

/-- `Addresses.parse_address` (lines 117-176).  The input is the
`(addr_str, addr_type)` pair; a missing (NaN) string is `none`. -/
def parse_address (address_info : Option String × Role) : Option AddressComponents :=
  let (addr_str, _addr_type) := address_info
  match addr_str with
  | none => none
  | some s =>
    if s = "Not Available" then none
    else parse_core (stripLabel s)

/-! ## The reconciler (`Addresses.process_addresses`, lines 16-115) -/

/-- One order row of the batch, with the three columns the method uses;
`none` models a NaN cell. -/
structure OrderRow where
  order_id : String
  shipping : Option String
  billing : Option String
deriving DecidableEq

/-- The collection pass (lines 25-33): gather the `(addr_type, addr)`
pairs of all rows into `all_addresses`.  The Python `set` is modelled as
a list deduplicated on first insertion, with the per-row shipping-then-
billing insertion order. -/
def collectAddresses (df : List OrderRow) : List (Role × String) :=
  df.foldl (fun acc row =>
    let acc1 :=
      match row.shipping with
      | some a => if (Role.shipping, a) ∈ acc then acc else acc ++ [(Role.shipping, a)]
      | none => acc
    match row.billing with
    | some a => if (Role.billing, a) ∈ acc1 then acc1 else acc1 ++ [(Role.billing, a)]
    | none => acc1) []

/-- The parse + dedup pass (lines 49-65): parse each reference, drop
failures, and keep a parse only if its `address_key` — which the source
computes as `parsed[0].upper()` alone, the city/state/postal_code
components being commented out — was not seen before. -/
def addressTuples : List (Role × String) → List String → List AddressComponents
  | [], _ => []
  | (addr_type, addr) :: rest, seen =>
    match parse_address (some addr, addr_type) with
    | some parsed =>
      if pyUpper parsed.line1 ∈ seen then addressTuples rest seen
      else parsed :: addressTuples rest (pyUpper parsed.line1 :: seen)
    | none => addressTuples rest seen

/-- One row of the `addresses` table. -/
structure AddrRow where
  id : Nat
  line1 : String
  line2 : Option String
  city : String
  state : String
  postal_code : String
  country : String
deriving DecidableEq

/-- The `addresses` table plus its id sequence (ids are generated from 1). -/
structure AddrStore where
  rows : List AddrRow
  nextId : Nat
deriving DecidableEq

/-- The `ON CONFLICT (address_line1, city, state, postal_code)` target of
the insert query (lines 37-47). -/
def keyMatch (r : AddrRow) (p : AddressComponents) : Bool :=
  r.line1 = p.line1 && r.city = p.city && r.state = p.state && r.postal_code = p.postal_code

/-- Replace the first row satisfying the predicate. -/
def replaceFirst : List AddrRow → (AddrRow → Bool) → AddrRow → List AddrRow
  | [], _, _ => []
  | q :: qs, pred, r => if pred q then r :: qs else q :: replaceFirst qs pred r

/-- Modelled from the spec: one row of the batched
`INSERT ... ON CONFLICT ... DO UPDATE SET address_line2 = ..., country = ...
RETURNING id, address_line1, city, state, postal_code` executed by
psycopg2/Postgres (outside this repository).  On an identity-key conflict
the mutable fields are updated and the existing id is returned; otherwise
the row is inserted under a fresh id (spec section 4.2 step 3). -/
def AddrStore.upsert (st : AddrStore) (p : AddressComponents) : AddrStore × AddrRow :=
  match st.rows.find? (fun r => keyMatch r p) with
  | some r =>
    let r2 : AddrRow := { r with line2 := p.line2, country := p.country }
    (⟨replaceFirst st.rows (fun q => keyMatch q p) r2, st.nextId⟩, r2)
  | none =>
    let r : AddrRow := ⟨st.nextId, p.line1, p.line2, p.city, p.state, p.postal_code, p.country⟩
    (⟨st.rows ++ [r], st.nextId + 1⟩, r)

/-- The batched upsert (`execute_values`, line 72), returning the final
store and the RETURNING rows in input order. -/
def upsertAll (st : AddrStore) : List AddressComponents → AddrStore × List AddrRow
  | [] => (st, [])
  | p :: ps =>
    let res := st.upsert p
    let rest := upsertAll res.1 ps
    (rest.1, res.2 :: rest.2)

/-- The f-string key `f"{addr_line1}|{city}|{state}|{postal_code}"` built
from a returned row (line 79). -/
def rowPipeKey (r : AddrRow) : String :=
  r.line1 ++ "|" ++ r.city ++ "|" ++ r.state ++ "|" ++ r.postal_code

/-- The same key built from a fresh parse in the linking pass (lines 96-97). -/
def pipeKey (p : AddressComponents) : String :=
  p.line1 ++ "|" ++ p.city ++ "|" ++ p.state ++ "|" ++ p.postal_code

/-- Lines 76-80: `address_lookup` built from the returned rows.  The
Python dict is modelled as an association list with the most recent
binding first.  Modelled from the spec: the rows consumed from the cursor
after the batched upsert are its RETURNING rows (spec section 4.2 step 3);
the psycopg2 cursor mechanics are outside this repository. -/
def buildLookup (returned : List AddrRow) : List (String × Nat) :=
  returned.foldl (fun acc r => (rowPipeKey r, r.id) :: acc) []

/-- `address_lookup.get(key)`. -/
def dictGet (d : List (String × Nat)) (k : String) : Option Nat :=
  (d.find? (fun e => e.1 == k)).map (fun e => e.2)

/-- An `order_addresses` row `(order_id, shipping_address_id, billing_address_id)`. -/
abbrev Link := String × Nat × Nat

/-- The body of the linking loop for one row (lines 93-105), including
the Python truthiness test `if shipping_id and billing_id:` (an id of 0
would be falsy; ids are generated from 1). -/
def linkForRow (lookup : List (String × Nat)) (row : OrderRow) : Option Link :=
  match parse_address (row.shipping, Role.shipping),
        parse_address (row.billing, Role.billing) with
  | some sp, some bp =>
    match dictGet lookup (pipeKey sp), dictGet lookup (pipeKey bp) with
    | some shipping_id, some billing_id =>
      if shipping_id ≠ 0 ∧ billing_id ≠ 0 then
        some (row.order_id, shipping_id, billing_id)
      else none
    | _, _ => none
  | _, _ => none

/-- The linking pass (lines 91-105): `order_address_data`. -/
def buildLinks (df : List OrderRow) (lookup : List (String × Nat)) : List Link :=
  df.filterMap (linkForRow lookup)

/-- Modelled from the spec: one row of the batched
`INSERT INTO order_addresses ... ON CONFLICT (order_id) DO UPDATE`
(lines 83-89) executed by Postgres (outside this repository): keyed on
order_id, both id columns overwritten, last write wins (spec section 4.2
step 5). -/
def upsertLink (ls : List Link) (l : Link) : List Link :=
  match ls with
  | [] => [l]
  | e :: es => if e.1 = l.1 then l :: es else e :: upsertLink es l

/-- The batched link upsert (`execute_values`, line 108). -/
def upsertLinks (ls : List Link) (data : List Link) : List Link :=
  data.foldl upsertLink ls

/-- The database connection state: committed tables and the working
(in-transaction) view of both tables.  Modelled from the spec:
`conn.commit()` makes the working state durable, `conn.rollback()`
resets the working state to the committed one (transaction plumbing is
outside this repository). -/
structure Db where
  addrC : AddrStore
  linkC : List Link
  addrW : AddrStore
  linkW : List Link
deriving DecidableEq

def Db.empty : Db := ⟨⟨[], 1⟩, [], ⟨[], 1⟩, []⟩

def Db.commit (db : Db) : Db := ⟨db.addrW, db.linkW, db.addrW, db.linkW⟩

def Db.rollback (db : Db) : Db := ⟨db.addrC, db.linkC, db.addrC, db.linkC⟩

/-- An injected persistence-layer failure: none, or at one of the two
`execute_values` calls (lines 72 and 108). -/
inductive Fault
  | ok
  | atAddressUpsert
  | atLinkUpsert
deriving DecidableEq

/-- The outcome of one `process_addresses` call: whether the exception
handler re-raised, the connection state, and (as ghost observables) the
RETURNING rows of the address upsert and the emitted `order_address_data`. -/
structure RunResult where
  raised : Bool
  db : Db
  returned : List AddrRow
  emitted : List Link
deriving DecidableEq

/-- The `address_tuples` list of lines 49-65 for a batch. -/
def reconTuples (df : List OrderRow) : List AddressComponents :=
  addressTuples (collectAddresses df) []

/-- The batched address upsert of line 72: final store and RETURNING rows. -/
def reconUp (df : List OrderRow) (db : Db) : AddrStore × List AddrRow :=
  upsertAll db.addrW (reconTuples df)

/-- The connection state right after the `conn.commit()` of line 73. -/
def reconDb1 (df : List OrderRow) (db : Db) : Db :=
  Db.commit ⟨db.addrC, db.linkC, (reconUp df db).1, db.linkW⟩

/-- The `address_lookup` dict of lines 76-80. -/
def reconLookup (df : List OrderRow) (db : Db) : List (String × Nat) :=
  buildLookup (reconUp df db).2

/-- The `order_address_data` list of lines 91-105. -/
def reconData (df : List OrderRow) (db : Db) : List Link :=
  buildLinks df (reconLookup df db)

/-- `Addresses.process_addresses` (lines 16-115).  The required-columns
check (lines 20-23) is discharged by the typed `OrderRow`.  A failing
`execute_values` raises, and the handler (lines 112-115) rolls back and
re-raises; note the source commits the address upsert (line 73) before
the linking pass, and commits the link upsert (line 109) separately.
The early returns of lines 67-69 (`if not address_tuples`) and 107
(`if order_address_data`) are the first and third branches. -/
def process_addresses (df : List OrderRow) (fault : Fault) (db : Db) : RunResult :=
  if reconTuples df = [] then ⟨false, db, [], []⟩
  else if fault = Fault.atAddressUpsert then ⟨true, db.rollback, [], []⟩
  else if reconData df db = [] then ⟨false, reconDb1 df db, (reconUp df db).2, reconData df db⟩
  else if fault = Fault.atLinkUpsert then
    ⟨true, (reconDb1 df db).rollback, (reconUp df db).2, reconData df db⟩
  else
    ⟨false,
      Db.commit ⟨(reconDb1 df db).addrC, (reconDb1 df db).linkC, (reconDb1 df db).addrW,
        upsertLinks (reconDb1 df db).linkW (reconData df db)⟩,
      (reconUp df db).2, reconData df db⟩

/-- A fault-free run. -/
def runOnce (df : List OrderRow) (db : Db) : RunResult :=
  process_addresses df Fault.ok db

/-- Well-formedness of the address store: ids are generated from 1. -/
def AddrStoreWF (st : AddrStore) : Prop :=
  (∀ r ∈ st.rows, 1 ≤ r.id) ∧ 1 ≤ st.nextId

/-! ## Helper lemmas about the tokenizer and the parser -/

lemma splitAux_ne_nil : ∀ (cs cur t : List Char), t ∈ splitAux cs cur → t ≠ [] := by
  intro cs
  induction cs with
  | nil =>
    intro cur t h
    match cur with
    | [] => simp [splitAux] at h
    | c :: cur1 =>
      simp only [splitAux, List.mem_singleton] at h
      subst h
      simp
  | cons c cs ih =>
    intro cur t h
    by_cases hc : isPySpace c
    · match cur with
      | [] =>
        simp only [splitAux, hc, if_true] at h
        exact ih [] t h
      | d :: cur1 =>
        simp only [splitAux, hc, if_true, List.mem_cons] at h
        rcases h with h | h
        · subst h
          simp
        · exact ih [] t h
    · simp only [splitAux, hc, if_false, Bool.false_eq_true] at h
      exact ih (c :: cur) t h

lemma pySplit_tok_ne_nil {s : String} {w : String} (h : w ∈ pySplit s) : w.data ≠ [] := by
  unfold pySplit splitChars at h
  rcases List.mem_map.mp h with ⟨t, ht, rfl⟩
  exact splitAux_ne_nil s.data [] t ht

lemma mem_stripCountryRev {x : String} {l : List String} (h : x ∈ stripCountryRev l) : x ∈ l := by
  unfold stripCountryRev at h
  split at h
  · next rest => simp [h]
  · exact h

lemma parse_core_inv {s1 : String} {p : AddressComponents} (h : parse_core s1 = some p) :
    ∃ postalTok stateTok cityTok restRev,
      stripCountryRev (pySplit s1).reverse = postalTok :: stateTok :: cityTok :: restRev ∧
      p = ⟨(splitStreet restRev.reverse).1, (splitStreet restRev.reverse).2, cityTok, stateTok,
        hyphenTrunc postalTok, "United States"⟩ := by
  simp only [parse_core] at h
  split at h
  · next postalTok stateTok cityTok restRev heq =>
    exact ⟨postalTok, stateTok, cityTok, restRev, heq, (Option.some.inj h).symm⟩
  · exact absurd h (by simp)

lemma parse_address_some_eq (s : String) (r : Role) :
    parse_address (some s, r) =
      if s = "Not Available" then none else parse_core (stripLabel s) := rfl

lemma parse_address_some_inv {s : String} {r : Role} {p : AddressComponents}
    (h : parse_address (some s, r) = some p) :
    parse_core (stripLabel s) = some p := by
  rw [parse_address_some_eq] at h
  by_cases hs : s = "Not Available"
  · rw [if_pos hs] at h
    exact absurd h (by simp)
  · rwa [if_neg hs] at h

/-! ## Equation lemmas for `process_addresses` -/

lemma process_addresses_nil {df : List OrderRow} {fault : Fault} {db : Db}
    (h : reconTuples df = []) :
    process_addresses df fault db = ⟨false, db, [], []⟩ := by
  simp only [process_addresses]
  rw [if_pos h]

lemma process_addresses_addrFault {df : List OrderRow} {db : Db}
    (h : reconTuples df ≠ []) :
    process_addresses df Fault.atAddressUpsert db = ⟨true, db.rollback, [], []⟩ := by
  simp only [process_addresses]
  rw [if_neg h]
  simp

lemma process_addresses_linkFault {df : List OrderRow} {db : Db}
    (h1 : reconTuples df ≠ []) (h2 : reconData df db ≠ []) :
    process_addresses df Fault.atLinkUpsert db =
      ⟨true, (reconDb1 df db).rollback, (reconUp df db).2, reconData df db⟩ := by
  simp only [process_addresses]
  rw [if_neg h1, if_neg (by decide), if_neg h2]
  simp

lemma process_addresses_linkFault_nolinks {df : List OrderRow} {db : Db}
    (h1 : reconTuples df ≠ []) (h2 : reconData df db = []) :
    process_addresses df Fault.atLinkUpsert db =
      ⟨false, reconDb1 df db, (reconUp df db).2, []⟩ := by
  simp only [process_addresses]
  rw [if_neg h1, if_neg (by decide), if_pos h2, h2]

lemma runOnce_nolinks {df : List OrderRow} {db : Db}
    (h1 : reconTuples df ≠ []) (h2 : reconData df db = []) :
    runOnce df db = ⟨false, reconDb1 df db, (reconUp df db).2, []⟩ := by
  unfold runOnce
  simp only [process_addresses]
  rw [if_neg h1, if_neg (by decide), if_pos h2, h2]

lemma runOnce_links {df : List OrderRow} {db : Db}
    (h1 : reconTuples df ≠ []) (h2 : reconData df db ≠ []) :
    runOnce df db =
      ⟨false,
        Db.commit ⟨(reconDb1 df db).addrC, (reconDb1 df db).linkC, (reconDb1 df db).addrW,
          upsertLinks (reconDb1 df db).linkW (reconData df db)⟩,
        (reconUp df db).2, reconData df db⟩ := by
  unfold runOnce
  simp only [process_addresses]
  rw [if_neg h1, if_neg (by decide), if_neg h2, if_neg (by decide)]

/-! ## C8 -/

/-- C8: `parse_address` is total — for every input (missing value, empty
string, the sentinel "Not Available", arbitrary strings) it returns either
a parsed `AddressComponents` or the `none` failure result (the embedding
of the caught-and-converted exception), and missing/empty input and the
sentinel all yield the failure result. -/
theorem C8_parse_total : ∀ (raw : Option String) (r : Role),
    (parse_address (raw, r) = none ∨ ∃ p, parse_address (raw, r) = some p) ∧
    parse_address (none, r) = none ∧
    parse_address (some "", r) = none ∧
    parse_address (some "Not Available", r) = none := by
  intro raw r
  refine ⟨?_, rfl, rfl, rfl⟩
  cases h : parse_address (raw, r) with
  | none => exact Or.inl rfl
  | some p => exact Or.inr ⟨p, rfl⟩

/-! ## C9 -/

lemma stripLabel_shipping (cs : List Char) :
    stripLabel ("Shipping Address: " ++ String.mk cs) = ⟨cs.dropWhile isPySpace⟩ := rfl

lemma stripLabel_billing (cs : List Char) :
    stripLabel ("Billing Address: " ++ String.mk cs) = ⟨cs.dropWhile isPySpace⟩ := rfl

lemma shipping_label_ne_sentinel (cs : List Char) :
    ("Shipping Address: " ++ String.mk cs) ≠ "Not Available" := by
  intro h
  have h2 := congrArg (fun t : String => t.data.take 1) h
  have h3 : (['S'] : List Char) = ['N'] := h2
  exact absurd h3 (by decide)

lemma billing_label_ne_sentinel (cs : List Char) :
    ("Billing Address: " ++ String.mk cs) ≠ "Not Available" := by
  intro h
  have h2 := congrArg (fun t : String => t.data.take 1) h
  have h3 : (['B'] : List Char) = ['N'] := h2
  exact absurd h3 (by decide)

/-- C9: the parse result does not depend on the role tag — for every raw
input the result is identical for the shipping and billing roles (the
unpacked `addr_type` is never consulted), and the label-stripping regex
removes a leading "Shipping Address:" exactly like a leading
"Billing Address:", so even labeled strings parse identically. -/
theorem C9_role_independent :
    (∀ (raw : Option String) (r r2 : Role), parse_address (raw, r) = parse_address (raw, r2)) ∧
    (∀ (s : String) (r r2 : Role),
      parse_address (some ("Shipping Address: " ++ s), r) =
        parse_address (some ("Billing Address: " ++ s), r2)) := by
  constructor
  · intro raw r r2
    rfl
  · intro s r r2
    obtain ⟨cs⟩ := s
    rw [parse_address_some_eq, parse_address_some_eq,
      if_neg (shipping_label_ne_sentinel cs), if_neg (billing_label_ne_sentinel cs),
      stripLabel_shipping, stripLabel_billing]

/-! ## C1 -/

/-- Two rows whose addresses parse to the same line1 but different city
and postal code. -/
def c1df : List OrderRow :=
  [⟨"O1", some "1 A ST Springfield IL 62704", some "1 A ST Shelbyville IL 62705"⟩]

/-- C1 (code bug): the in-batch dedup key of `process_addresses` is
`parsed[0].upper()` alone — the city/state/postal_code components are
commented out at lines 55-60 — so two successful parses that differ in
city (and postal code) but share an uppercased line1 collapse to a single
persisted address row, contrary to the four-field canonical identity key
stated by the spec and by the source's own comment and conflict target. -/
theorem C1_dedup_uses_line1_only :
    parse_address (some "1 A ST Springfield IL 62704", Role.shipping) =
      some ⟨"1 A ST", none, "Springfield", "IL", "62704", "United States"⟩ ∧
    parse_address (some "1 A ST Shelbyville IL 62705", Role.billing) =
      some ⟨"1 A ST", none, "Shelbyville", "IL", "62705", "United States"⟩ ∧
    addressTuples (collectAddresses c1df) [] =
      [⟨"1 A ST", none, "Springfield", "IL", "62704", "United States"⟩] ∧
    (runOnce c1df Db.empty).db.addrC.rows =
      [⟨1, "1 A ST", none, "Springfield", "IL", "62704", "United States"⟩] :=
  ⟨rfl, rfl, rfl, rfl⟩

/-! ## C2 -/

/-- C2 counterexample: the three-token input "1 2 3" parses successfully
(no exception is raised: `parts[-1]` is applied three times to non-empty
lists) yet its `line1` is the empty string, so a successful parse does
not guarantee all five required fields non-empty. -/
theorem C2_counterexample_empty_line1 :
    parse_address (some "1 2 3", Role.shipping) =
      some ⟨"", none, "1", "2", "3", "United States"⟩ ∧
    (⟨"", none, "1", "2", "3", "United States"⟩ : AddressComponents).line1 = "" :=
  ⟨rfl, rfl⟩

/-- C2 (amended): on a successful parse the city, state and country
fields are always non-empty (they are whitespace-split tokens, resp. a
fixed literal), but `line1` — and `postal_code`, for a token starting
with a hyphen — can be empty: the parser does not enforce the five-field
non-emptiness invariant. -/
theorem C2_city_state_country_nonempty :
    ∀ (s : String) (r : Role) (p : AddressComponents),
      parse_address (some s, r) = some p →
      p.city ≠ "" ∧ p.state ≠ "" ∧ p.country ≠ "" := by
  intro s r p h
  obtain ⟨postalTok, stateTok, cityTok, restRev, heq, rfl⟩ :=
    parse_core_inv (parse_address_some_inv h)
  have hc : cityTok ∈ stripCountryRev (pySplit (stripLabel s)).reverse := by
    rw [heq]
    simp
  have hs : stateTok ∈ stripCountryRev (pySplit (stripLabel s)).reverse := by
    rw [heq]
    simp
  have hc2 : cityTok ∈ pySplit (stripLabel s) := List.mem_reverse.mp (mem_stripCountryRev hc)
  have hs2 : stateTok ∈ pySplit (stripLabel s) := List.mem_reverse.mp (mem_stripCountryRev hs)
  refine ⟨?_, ?_, ?_⟩
  · show cityTok ≠ ""
    intro hemp
    exact pySplit_tok_ne_nil hc2 (by rw [hemp])
  · show stateTok ≠ ""
    intro hemp
    exact pySplit_tok_ne_nil hs2 (by rw [hemp])
  · show ("United States" : String) ≠ ""
    decide

/-- Closed instance of `C2_city_state_country_nonempty`. -/
theorem C2_city_state_country_nonempty_witness :
    parse_address (some "1 A ST B C 12345", Role.shipping) =
      some ⟨"1 A ST", none, "B", "C", "12345", "United States"⟩ ∧
    (("B" : String) ≠ "" ∧ ("C" : String) ≠ "" ∧ ("United States" : String) ≠ "") :=
  ⟨rfl, C2_city_state_country_nonempty "1 A ST B C 12345" Role.shipping
    ⟨"1 A ST", none, "B", "C", "12345", "United States"⟩ rfl⟩

/-! ## C3 -/

/-- A one-row batch whose address parses and which produces a link. -/
def c3df : List OrderRow :=
  [⟨"O1", some "1 A ST B C 12345", some "1 A ST B C 12345"⟩]

/-- C3 counterexample: when the persistence failure occurs at the link
upsert (line 108), the error is re-raised but the batch's address row is
still visible in the committed store afterwards — the source committed
the address upsert at line 73 before linking, so the rollback of line 114
cannot undo it.  This contradicts the claim that after an aborted run no
address row from the batch is visible. -/
theorem C3_counterexample_addresses_survive_abort :
    (process_addresses c3df Fault.atLinkUpsert Db.empty).raised = true ∧
    (process_addresses c3df Fault.atLinkUpsert Db.empty).db.addrC.rows =
      [⟨1, "1 A ST", none, "B", "C", "12345", "United States"⟩] :=
  ⟨rfl, rfl⟩

/-- C3 (amended): rollback-on-failure holds per statement, not per batch.
If the failure hits the address upsert, the error is re-raised and the
store is exactly as before the call (no batch data visible).  If it hits
the link upsert, the error is re-raised, no link row of the batch is
visible, and the working state matches the committed state — but the
batch's address rows remain committed, because the source commits the
address upsert before linking. -/
theorem C3_per_statement_rollback :
    ∀ (df : List OrderRow) (db : Db), db.addrW = db.addrC → db.linkW = db.linkC →
    (((process_addresses df Fault.atAddressUpsert db).raised = true →
        (process_addresses df Fault.atAddressUpsert db).db = db) ∧
     ((process_addresses df Fault.atLinkUpsert db).raised = true →
        (process_addresses df Fault.atLinkUpsert db).db.linkC = db.linkC ∧
        (process_addresses df Fault.atLinkUpsert db).db.linkW = db.linkC ∧
        (process_addresses df Fault.atLinkUpsert db).db.addrC = (reconUp df db).1 ∧
        (process_addresses df Fault.atLinkUpsert db).db.addrW =
          (process_addresses df Fault.atLinkUpsert db).db.addrC)) := by
  intro df db hA hL
  by_cases h1 : reconTuples df = []
  · constructor
    · intro hr
      rw [process_addresses_nil h1] at hr
      exact absurd hr (by simp)
    · intro hr
      rw [process_addresses_nil h1] at hr
      exact absurd hr (by simp)
  · constructor
    · intro _
      rw [process_addresses_addrFault h1]
      show db.rollback = db
      obtain ⟨aC, lC, aW, lW⟩ := db
      dsimp only [Db.rollback] at hA hL ⊢
      rw [hA, hL]
    · intro hr
      by_cases h2 : reconData df db = []
      · rw [process_addresses_linkFault_nolinks h1 h2] at hr
        exact absurd hr (by simp)
      · rw [process_addresses_linkFault h1 h2]
        refine ⟨?_, ?_, rfl, rfl⟩
        · show (reconDb1 df db).rollback.linkC = db.linkC
          dsimp only [reconDb1, Db.rollback, Db.commit]
          exact hL
        · show (reconDb1 df db).rollback.linkW = db.linkC
          dsimp only [reconDb1, Db.rollback, Db.commit]
          exact hL

/-- Closed instance of `C3_per_statement_rollback` at a failing link
upsert: the error is raised, no link is committed, the address rows are. -/
theorem C3_per_statement_rollback_witness :
    (process_addresses c3df Fault.atLinkUpsert Db.empty).db.linkC = Db.empty.linkC ∧
    (process_addresses c3df Fault.atLinkUpsert Db.empty).db.linkW = Db.empty.linkC ∧
    (process_addresses c3df Fault.atLinkUpsert Db.empty).db.addrC = (reconUp c3df Db.empty).1 ∧
    (process_addresses c3df Fault.atLinkUpsert Db.empty).db.addrW =
      (process_addresses c3df Fault.atLinkUpsert Db.empty).db.addrC :=
  (C3_per_statement_rollback c3df Db.empty rfl rfl).2 rfl

/-! ## C7 -/

/-- The token list after the label strip and the trailing-country strip,
in source order; its last element is the token the source consumes as the
postal code. -/
def tokensAfterCountry (s : String) : List String :=
  (stripCountryRev (pySplit (stripLabel s)).reverse).reverse

/-- C7: on every successful parse the postal code is the last token after
any trailing "United States" is removed, truncated — when it contains a
hyphen — to the portion before the first hyphen (`takeWhile (· ≠ '-')`);
in particular the ZIP+4 example truncates to "62704". -/
theorem C7_postal_last_token_hyphen_trunc :
    (∀ (s : String) (r : Role) (p : AddressComponents),
      parse_address (some s, r) = some p →
      ∃ t, (tokensAfterCountry s).getLast? = some t ∧ p.postal_code = hyphenTrunc t ∧
        hyphenTrunc t = (if t.data.contains '-' then beforeHyphen t else t) ∧
        beforeHyphen t = ⟨t.data.takeWhile (fun c => c ≠ '-')⟩) ∧
    parse_address (some "123 Main St Springfield IL 62704-1234", Role.shipping) =
      some ⟨"123 Main St", none, "Springfield", "IL", "62704", "United States"⟩ := by
  constructor
  · intro s r p h
    obtain ⟨postalTok, stateTok, cityTok, restRev, heq, rfl⟩ :=
      parse_core_inv (parse_address_some_inv h)
    refine ⟨postalTok, ?_, rfl, rfl, rfl⟩
    unfold tokensAfterCountry
    rw [heq, List.getLast?_reverse]
    rfl
  · rfl

/-- Closed instance of `C7_postal_last_token_hyphen_trunc`. -/
theorem C7_postal_last_token_hyphen_trunc_witness :
    ∃ t, (tokensAfterCountry "123 Main St Springfield IL 62704-1234").getLast? = some t ∧
      ("62704" : String) = hyphenTrunc t ∧
      hyphenTrunc t = (if t.data.contains '-' then beforeHyphen t else t) ∧
      beforeHyphen t = ⟨t.data.takeWhile (fun c => c ≠ '-')⟩ :=
  C7_postal_last_token_hyphen_trunc.1 "123 Main St Springfield IL 62704-1234" Role.shipping
    ⟨"123 Main St", none, "Springfield", "IL", "62704", "United States"⟩ rfl

/-! ## C6: support lemmas -/

/-- A well-formed token as produced by a whitespace split: non-empty and
containing no whitespace. -/
def tokOk (w : String) : Prop :=
  w.data ≠ [] ∧ ∀ c ∈ w.data, isPySpace c = false

instance (w : String) : Decidable (tokOk w) := by
  unfold tokOk
  infer_instance

lemma splitAux_nonspace : ∀ (t rest cur : List Char),
    (∀ c ∈ t, isPySpace c = false) →
    splitAux (t ++ rest) cur = splitAux rest (t.reverse ++ cur) := by
  intro t
  induction t with
  | nil =>
    intro rest cur _
    simp
  | cons c t ih =>
    intro rest cur h
    have hc : isPySpace c = false := h c (by simp)
    show splitAux (c :: (t ++ rest)) cur = _
    simp only [splitAux, hc, Bool.false_eq_true, if_false]
    rw [ih rest (c :: cur) (fun d hd => h d (by simp [hd]))]
    simp

lemma splitAux_join : ∀ ts : List (List Char),
    (∀ t ∈ ts, t ≠ [] ∧ ∀ c ∈ t, isPySpace c = false) →
    splitAux (joinChars ts) [] = ts := by
  intro ts
  induction ts with
  | nil =>
    intro _
    rfl
  | cons t ts ih =>
    intro h
    obtain ⟨hne, hns⟩ := h t (by simp)
    obtain ⟨d, cur1, hrev⟩ := List.exists_cons_of_ne_nil
      (fun hh => hne (List.reverse_eq_nil_iff.mp hh))
    cases ts with
    | nil =>
      show splitAux t [] = [t]
      have h1 := splitAux_nonspace t [] [] hns
      rw [List.append_nil, List.append_nil] at h1
      rw [h1, hrev]
      show [(d :: cur1).reverse] = [t]
      rw [← hrev, List.reverse_reverse]
    | cons t2 ts2 =>
      show splitAux (t ++ ' ' :: joinChars (t2 :: ts2)) [] = t :: t2 :: ts2
      rw [splitAux_nonspace t (' ' :: joinChars (t2 :: ts2)) [] hns, List.append_nil, hrev]
      show (d :: cur1).reverse :: splitAux (joinChars (t2 :: ts2)) [] = t :: t2 :: ts2
      rw [← hrev, List.reverse_reverse, ih (fun u hu => h u (by simp [hu]))]

lemma string_eta (s : String) : String.mk s.data = s := rfl

lemma pySplit_joinSpace (ws : List String) (h : ∀ w ∈ ws, tokOk w) :
    pySplit (joinSpace ws) = ws := by
  show (splitAux (joinChars (ws.map String.data)) []).map (fun t => String.mk t) = ws
  rw [splitAux_join (ws.map String.data) ?_]
  · rw [List.map_map]
    have h2 : ∀ w ∈ ws, (String.mk ∘ String.data) w = id w := fun w _ => rfl
    rw [List.map_congr_left h2, List.map_id]
  · intro t ht
    rcases List.mem_map.mp ht with ⟨w, hw, rfl⟩
    exact h w hw

lemma lastIdxAux_no_match : ∀ (ws : List String) (i : Nat) (acc : Option Nat),
    (∀ w ∈ ws, w ∉ streetIdentifiers) → lastIdxAux ws i acc = acc := by
  intro ws
  induction ws with
  | nil =>
    intro i acc _
    rfl
  | cons w ws ih =>
    intro i acc h
    have hw : w ∉ streetIdentifiers := h w (by simp)
    simp only [lastIdxAux, if_neg hw]
    exact ih (i + 1) acc (fun v hv => h v (by simp [hv]))

lemma lastIdxAux_last_match : ∀ (pre : List String) (w : String) (post : List String)
    (i : Nat) (acc : Option Nat), w ∈ streetIdentifiers →
    (∀ v ∈ post, v ∉ streetIdentifiers) →
    lastIdxAux (pre ++ w :: post) i acc = some (i + pre.length + 1) := by
  intro pre
  induction pre with
  | nil =>
    intro w post i acc hw hpost
    simp only [List.nil_append, lastIdxAux, if_pos hw]
    rw [lastIdxAux_no_match post (i + 1) (some (i + 1)) hpost]
    simp
  | cons p pre ih =>
    intro w post i acc hw hpost
    simp only [List.cons_append, lastIdxAux, List.append_eq]
    rw [ih w post (i + 1) _ hw hpost]
    simp only [List.length_cons]
    congr 1
    omega

lemma take_append_cons_self (pre : List String) (w : String) (post : List String) :
    (pre ++ w :: post).take (pre.length + 1) = pre ++ [w] := by
  induction pre with
  | nil => simp
  | cons p pre ih =>
    simp only [List.cons_append, List.length_cons, List.take_succ_cons]
    rw [ih]

lemma drop_append_cons_self (pre : List String) (w : String) (post : List String) :
    (pre ++ w :: post).drop (pre.length + 1) = post := by
  induction pre with
  | nil => simp
  | cons p pre ih =>
    simp only [List.cons_append, List.length_cons, List.drop_succ_cons]
    exact ih

lemma splitStreet_last_match (pre post : List String) (w : String)
    (hok : ∀ v ∈ pre ++ w :: post, tokOk v) (hw : w ∈ streetIdentifiers)
    (hpost : ∀ v ∈ post, v ∉ streetIdentifiers) :
    splitStreet (pre ++ w :: post) =
      (joinSpace (pre ++ [w]), if post = [] then none else some (joinSpace post)) := by
  simp only [splitStreet]
  rw [pySplit_joinSpace _ hok, lastIdxAux_last_match pre w post 0 none hw hpost]
  simp only [Nat.zero_add]
  rw [if_pos (Nat.succ_ne_zero pre.length)]
  rw [take_append_cons_self, drop_append_cons_self]
  by_cases hp : post = []
  · subst hp
    rw [if_neg (by simp), if_pos rfl]
  · rw [if_pos ?_, if_neg hp]
    have : 0 < post.length := List.length_pos.mpr hp
    simp only [List.length_append, List.length_cons]
    omega

lemma splitStreet_no_match (ws : List String) (hok : ∀ v ∈ ws, tokOk v)
    (h : ∀ v ∈ ws, v ∉ streetIdentifiers) :
    splitStreet ws = (joinSpace ws, none) := by
  simp only [splitStreet]
  rw [pySplit_joinSpace _ hok, lastIdxAux_no_match ws 0 none h]

/-- C6: the street region is split immediately after the *last* token in
{DR, ST, AVE, BLVD, RD, LN, CT, WAY} — tokens before it (including earlier
identifiers) form `line1`, the tokens after it form `line2` (null when
none remain); with no identifier in the region, `line1` is the whole
region and `line2` is null; and the worked example splits as stated. -/
theorem C6_street_split_after_last_identifier :
    (∀ (pre post : List String) (w : String),
      (∀ v ∈ pre ++ w :: post, tokOk v) → w ∈ streetIdentifiers →
      (∀ v ∈ post, v ∉ streetIdentifiers) →
      splitStreet (pre ++ w :: post) =
        (joinSpace (pre ++ [w]), if post = [] then none else some (joinSpace post))) ∧
    (∀ ws : List String, (∀ v ∈ ws, tokOk v) → (∀ v ∈ ws, v ∉ streetIdentifiers) →
      splitStreet ws = (joinSpace ws, none)) ∧
    parse_address (some "742 Evergreen DR Apt 4 Springfield OR 97477", Role.shipping) =
      some ⟨"742 Evergreen DR", some "Apt 4", "Springfield", "OR", "97477", "United States"⟩ :=
  ⟨splitStreet_last_match, splitStreet_no_match, rfl⟩

/-- Closed instance of `C6_street_split_after_last_identifier`. -/
theorem C6_street_split_after_last_identifier_witness :
    splitStreet ["742", "Evergreen", "DR", "Apt", "4"] =
      (joinSpace ["742", "Evergreen", "DR"], some (joinSpace ["Apt", "4"])) ∧
    joinSpace ["742", "Evergreen", "DR"] = "742 Evergreen DR" ∧
    joinSpace ["Apt", "4"] = "Apt 4" :=
  ⟨C6_street_split_after_last_identifier.1 ["742", "Evergreen"] ["Apt", "4"] "DR"
    (by decide) (by decide) (by decide), rfl, rfl⟩

/-! ## C4: support lemmas (ids in the lookup are positive) -/

lemma mem_of_mem_replaceFirst : ∀ {rows : List AddrRow} {pred : AddrRow → Bool} {r2 x : AddrRow},
    x ∈ replaceFirst rows pred r2 → x = r2 ∨ x ∈ rows := by
  intro rows
  induction rows with
  | nil =>
    intro pred r2 x h
    simp [replaceFirst] at h
  | cons q qs ih =>
    intro pred r2 x h
    unfold replaceFirst at h
    by_cases hq : pred q
    · rw [if_pos hq] at h
      rcases List.mem_cons.mp h with rfl | h2
      · exact Or.inl rfl
      · exact Or.inr (List.mem_cons_of_mem q h2)
    · rw [if_neg hq] at h
      rcases List.mem_cons.mp h with rfl | h2
      · exact Or.inr (by simp)
      · rcases ih h2 with h3 | h3
        · exact Or.inl h3
        · exact Or.inr (by simp [h3])

lemma upsert_wf {st : AddrStore} {p : AddressComponents} (h : AddrStoreWF st) :
    AddrStoreWF (st.upsert p).1 ∧ 1 ≤ (st.upsert p).2.id := by
  obtain ⟨hrows, hnext⟩ := h
  cases hf : st.rows.find? (fun r => keyMatch r p) with
  | some r =>
    have hr : r ∈ st.rows := List.mem_of_find?_eq_some hf
    have hid : 1 ≤ r.id := hrows r hr
    simp only [AddrStore.upsert, hf]
    refine ⟨⟨?_, hnext⟩, hid⟩
    intro x hx
    rcases mem_of_mem_replaceFirst hx with rfl | hx2
    · exact hid
    · exact hrows x hx2
  | none =>
    simp only [AddrStore.upsert, hf]
    refine ⟨⟨?_, by show 1 ≤ st.nextId + 1; omega⟩, hnext⟩
    intro x hx
    rcases List.mem_append.mp hx with hx2 | hx2
    · exact hrows x hx2
    · rw [List.mem_singleton.mp hx2]
      exact hnext

lemma upsertAll_wf : ∀ (ps : List AddressComponents) (st : AddrStore), AddrStoreWF st →
    AddrStoreWF (upsertAll st ps).1 ∧ ∀ r ∈ (upsertAll st ps).2, 1 ≤ r.id := by
  intro ps
  induction ps with
  | nil =>
    intro st h
    exact ⟨h, by simp [upsertAll]⟩
  | cons p ps ih =>
    intro st h
    obtain ⟨h1, h2⟩ := upsert_wf (p := p) h
    obtain ⟨h3, h4⟩ := ih (st.upsert p).1 h1
    refine ⟨h3, ?_⟩
    intro r hr
    simp only [upsertAll, List.mem_cons] at hr
    rcases hr with rfl | hr2
    · exact h2
    · exact h4 r hr2

lemma mem_buildLookup_aux : ∀ (R : List AddrRow) (acc : List (String × Nat)) (e : String × Nat),
    e ∈ R.foldl (fun acc r => (rowPipeKey r, r.id) :: acc) acc →
    (∃ r ∈ R, e = (rowPipeKey r, r.id)) ∨ e ∈ acc := by
  intro R
  induction R with
  | nil =>
    intro acc e h
    exact Or.inr h
  | cons r R ih =>
    intro acc e h
    rcases ih _ e h with ⟨r2, hr2, he⟩ | h2
    · exact Or.inl ⟨r2, by simp [hr2], he⟩
    · rcases List.mem_cons.mp h2 with rfl | h3
      · exact Or.inl ⟨r, by simp, rfl⟩
      · exact Or.inr h3

lemma lookup_id_pos {df : List OrderRow} {db : Db} (hwf : AddrStoreWF db.addrW)
    {k : String} {v : Nat} (hget : dictGet (reconLookup df db) k = some v) : v ≠ 0 := by
  unfold dictGet at hget
  cases hfind : (reconLookup df db).find? (fun e => e.1 == k) with
  | none =>
    rw [hfind] at hget
    simp at hget
  | some e =>
    rw [hfind] at hget
    simp at hget
    have hmem := List.mem_of_find?_eq_some hfind
    unfold reconLookup buildLookup at hmem
    rcases mem_buildLookup_aux _ _ _ hmem with ⟨r, hr, he⟩ | h2
    · have hid := (upsertAll_wf (reconTuples df) db.addrW hwf).2 r hr
      rw [he] at hget
      omega
    · simp at h2

/-- C4: a link is emitted for an order row exactly when both its shipping
and billing strings parse successfully and both identity keys resolve in
the persisted-address lookup; when emitted, the link carries the two
resolved ids, and when either side fails to parse or misses the lookup no
link at all is emitted for that row — and the run's emitted link list is
exactly the per-row filter over the batch. -/
theorem C4_all_or_nothing_linking :
    ∀ (df : List OrderRow) (db : Db), AddrStoreWF db.addrW → ∀ row : OrderRow,
      (linkForRow (reconLookup df db) row ≠ none ↔
        (∃ sp bp, parse_address (row.shipping, Role.shipping) = some sp ∧
          parse_address (row.billing, Role.billing) = some bp ∧
          (dictGet (reconLookup df db) (pipeKey sp)).isSome ∧
          (dictGet (reconLookup df db) (pipeKey bp)).isSome)) ∧
      (∀ sp bp sid bid, parse_address (row.shipping, Role.shipping) = some sp →
        parse_address (row.billing, Role.billing) = some bp →
        dictGet (reconLookup df db) (pipeKey sp) = some sid →
        dictGet (reconLookup df db) (pipeKey bp) = some bid →
        linkForRow (reconLookup df db) row = some (row.order_id, sid, bid)) ∧
      ((parse_address (row.shipping, Role.shipping) = none ∨
        parse_address (row.billing, Role.billing) = none) →
        linkForRow (reconLookup df db) row = none) ∧
      (process_addresses df Fault.ok db).emitted =
        df.filterMap (linkForRow (reconLookup df db)) := by
  intro df db hwf row
  have hmain : ∀ sp bp sid bid, parse_address (row.shipping, Role.shipping) = some sp →
      parse_address (row.billing, Role.billing) = some bp →
      dictGet (reconLookup df db) (pipeKey sp) = some sid →
      dictGet (reconLookup df db) (pipeKey bp) = some bid →
      linkForRow (reconLookup df db) row = some (row.order_id, sid, bid) := by
    intro sp bp sid bid hsp hbp hg1 hg2
    have h1 : sid ≠ 0 := lookup_id_pos hwf hg1
    have h2 : bid ≠ 0 := lookup_id_pos hwf hg2
    simp [linkForRow, hsp, hbp, hg1, hg2, h1, h2]
  refine ⟨⟨?_, ?_⟩, hmain, ?_, ?_⟩
  · intro hne
    cases hsp : parse_address (row.shipping, Role.shipping) with
    | none => exact absurd (by simp [linkForRow, hsp]) hne
    | some sp =>
      cases hbp : parse_address (row.billing, Role.billing) with
      | none => exact absurd (by simp [linkForRow, hsp, hbp]) hne
      | some bp =>
        cases hg1 : dictGet (reconLookup df db) (pipeKey sp) with
        | none => exact absurd (by simp [linkForRow, hsp, hbp, hg1]) hne
        | some sid =>
          cases hg2 : dictGet (reconLookup df db) (pipeKey bp) with
          | none => exact absurd (by simp [linkForRow, hsp, hbp, hg1, hg2]) hne
          | some bid => exact ⟨sp, bp, rfl, rfl, by simp [hg1], by simp [hg2]⟩
  · rintro ⟨sp, bp, hsp, hbp, hg1, hg2⟩
    obtain ⟨sid, hg1b⟩ := Option.isSome_iff_exists.mp hg1
    obtain ⟨bid, hg2b⟩ := Option.isSome_iff_exists.mp hg2
    rw [hmain sp bp sid bid hsp hbp hg1b hg2b]
    simp
  · intro h
    rcases h with h | h
    · simp [linkForRow, h]
    · cases hsp : parse_address (row.shipping, Role.shipping) with
      | none => simp [linkForRow, hsp]
      | some sp => simp [linkForRow, hsp, h]
  · by_cases h1 : reconTuples df = []
    · rw [process_addresses_nil h1]
      have hlk : reconLookup df db = [] := by
        unfold reconLookup reconUp
        rw [h1]
        rfl
      rw [hlk]
      have hnone : ∀ a : OrderRow, linkForRow [] a = none := by
        intro a
        cases hsp : parse_address (a.shipping, Role.shipping) with
        | none => simp [linkForRow, hsp]
        | some sp =>
          cases hbp : parse_address (a.billing, Role.billing) with
          | none => simp [linkForRow, hsp, hbp]
          | some bp => simp [linkForRow, hsp, hbp, dictGet]
      show ([] : List Link) = df.filterMap (linkForRow [])
      induction df with
      | nil => rfl
      | cons a df ih => simp [List.filterMap_cons, hnone, ← ih]
    · by_cases h2 : reconData df db = []
      · rw [show process_addresses df Fault.ok db = _ from runOnce_nolinks h1 h2]
        exact h2.symm
      · rw [show process_addresses df Fault.ok db = _ from runOnce_links h1 h2]
        rfl

/-- Closed instance of `C4_all_or_nothing_linking`. -/
theorem C4_all_or_nothing_linking_witness :
    AddrStoreWF Db.empty.addrW ∧
    linkForRow (reconLookup c3df Db.empty)
      ⟨"O1", some "1 A ST B C 12345", some "1 A ST B C 12345"⟩ = some ("O1", 1, 1) := by
  have hwf : AddrStoreWF Db.empty.addrW :=
    ⟨fun r hr => absurd hr (List.not_mem_nil r), Nat.le_refl 1⟩
  refine ⟨hwf, ?_⟩
  exact (C4_all_or_nothing_linking c3df Db.empty hwf
      ⟨"O1", some "1 A ST B C 12345", some "1 A ST B C 12345"⟩).2.1
    ⟨"1 A ST", none, "B", "C", "12345", "United States"⟩
    ⟨"1 A ST", none, "B", "C", "12345", "United States"⟩ 1 1 rfl rfl rfl rfl

/-! ## C10 -/

lemma pipeKey_inj_of_fields {p q : AddressComponents} (hc : p.city = q.city)
    (hs : p.state = q.state) (hz : p.postal_code = q.postal_code)
    (hk : pipeKey p = pipeKey q) : p.line1 = q.line1 := by
  unfold pipeKey at hk
  rw [hc, hs, hz] at hk
  have hd := congrArg String.data hk
  simp only [String.data_append] at hd
  have h1 := List.append_cancel_right hd
  have h2 := List.append_cancel_right h1
  have h3 := List.append_cancel_right h2
  have h4 := List.append_cancel_right h3
  have h5 := List.append_cancel_right h4
  have h6 := List.append_cancel_right h5
  rw [← string_eta p.line1, ← string_eta q.line1, h6]

/-- C10: the in-batch dedup is case-insensitive on line1 while the linking
lookup key is case-sensitive.  For a batch of two rows whose address
strings parse to line1 values equal after uppercasing but different as
strings (same city/state/postal), only the first-processed variant is
persisted; that first row gets a link, while the row carrying the other
variant misses the identity-key lookup and gets no link. -/
theorem C10_case_mismatch_breaks_linking :
    ∀ (o1 o2 s1 s2 : String) (p1 p2 : AddressComponents),
      parse_address (some s1, Role.shipping) = some p1 →
      parse_address (some s2, Role.shipping) = some p2 →
      p1.line1 ≠ p2.line1 →
      pyUpper p1.line1 = pyUpper p2.line1 →
      p1.city = p2.city → p1.state = p2.state → p1.postal_code = p2.postal_code →
      (runOnce [⟨o1, some s1, some s1⟩, ⟨o2, some s2, some s2⟩] Db.empty).db.addrC.rows =
        [⟨1, p1.line1, p1.line2, p1.city, p1.state, p1.postal_code, p1.country⟩] ∧
      (runOnce [⟨o1, some s1, some s1⟩, ⟨o2, some s2, some s2⟩] Db.empty).emitted =
        [(o1, 1, 1)] ∧
      (runOnce [⟨o1, some s1, some s1⟩, ⟨o2, some s2, some s2⟩] Db.empty).db.linkC =
        [(o1, 1, 1)] ∧
      linkForRow (reconLookup [⟨o1, some s1, some s1⟩, ⟨o2, some s2, some s2⟩] Db.empty)
        ⟨o2, some s2, some s2⟩ = none := by
  intro o1 o2 s1 s2 p1 p2 hp1 hp2 hne hup hc hs hz
  have hb1 : parse_address (some s1, Role.billing) = some p1 := hp1
  have hb2 : parse_address (some s2, Role.billing) = some p2 := hp2
  have hs12 : s1 ≠ s2 := by
    intro he
    rw [he, hp2] at hp1
    exact hne (congrArg AddressComponents.line1 (Option.some.inj hp1).symm)
  have hcol : collectAddresses [⟨o1, some s1, some s1⟩, ⟨o2, some s2, some s2⟩] =
      [(Role.shipping, s1), (Role.billing, s1), (Role.shipping, s2), (Role.billing, s2)] := by
    simp [collectAddresses, hs12, Ne.symm hs12]
  have htup : reconTuples [⟨o1, some s1, some s1⟩, ⟨o2, some s2, some s2⟩] = [p1] := by
    unfold reconTuples
    rw [hcol]
    simp [addressTuples, hp1, hb1, hp2, hb2, ← hup]
  have hupA : reconUp [⟨o1, some s1, some s1⟩, ⟨o2, some s2, some s2⟩] Db.empty =
      (⟨[⟨1, p1.line1, p1.line2, p1.city, p1.state, p1.postal_code, p1.country⟩], 2⟩,
       [⟨1, p1.line1, p1.line2, p1.city, p1.state, p1.postal_code, p1.country⟩]) := by
    unfold reconUp
    rw [htup]
    rfl
  have hlookA : reconLookup [⟨o1, some s1, some s1⟩, ⟨o2, some s2, some s2⟩] Db.empty =
      [(pipeKey p1, 1)] := by
    unfold reconLookup
    rw [hupA]
    rfl
  have hget1 : dictGet [(pipeKey p1, 1)] (pipeKey p1) = some 1 := by
    simp [dictGet]
  have hkeyne : pipeKey p2 ≠ pipeKey p1 := by
    intro hk
    exact hne (pipeKey_inj_of_fields hc.symm hs.symm hz.symm hk).symm
  have hget2 : dictGet [(pipeKey p1, 1)] (pipeKey p2) = none := by
    simp [dictGet, Ne.symm hkeyne]
  have hrow2 : linkForRow [(pipeKey p1, 1)] ⟨o2, some s2, some s2⟩ = none := by
    simp [linkForRow, hp2, hb2, hget2]
  have hlinks : reconData [⟨o1, some s1, some s1⟩, ⟨o2, some s2, some s2⟩] Db.empty =
      [(o1, 1, 1)] := by
    unfold reconData buildLinks
    rw [hlookA]
    simp [List.filterMap_cons, linkForRow, hp1, hb1, hp2, hb2, hget1, hget2]
  have htne : reconTuples [⟨o1, some s1, some s1⟩, ⟨o2, some s2, some s2⟩] ≠ [] := by
    rw [htup]
    simp
  have hdne : reconData [⟨o1, some s1, some s1⟩, ⟨o2, some s2, some s2⟩] Db.empty ≠ [] := by
    rw [hlinks]
    simp
  rw [runOnce_links htne hdne]
  refine ⟨?_, ?_, ?_, ?_⟩
  · show (Db.commit ⟨_, _, _, _⟩).addrC.rows = _
    simp only [Db.commit, reconDb1, hupA]
  · show reconData _ _ = _
    exact hlinks
  · show (Db.commit ⟨_, _, _, _⟩).linkC = _
    simp only [Db.commit, reconDb1, hlinks, hupA]
    rfl
  · rw [hlookA]
    exact hrow2

/-- Closed instance of `C10_case_mismatch_breaks_linking`: "1 A ST" and
"1 a ST" share an uppercased line1; only the first is persisted, order O2
gets no link. -/
theorem C10_case_mismatch_breaks_linking_witness :
    (runOnce [⟨"O1", some "1 A ST B C 12345", some "1 A ST B C 12345"⟩,
        ⟨"O2", some "1 a ST B C 12345", some "1 a ST B C 12345"⟩] Db.empty).db.addrC.rows =
      [⟨1, "1 A ST", none, "B", "C", "12345", "United States"⟩] ∧
    (runOnce [⟨"O1", some "1 A ST B C 12345", some "1 A ST B C 12345"⟩,
        ⟨"O2", some "1 a ST B C 12345", some "1 a ST B C 12345"⟩] Db.empty).emitted =
      [("O1", 1, 1)] ∧
    (runOnce [⟨"O1", some "1 A ST B C 12345", some "1 A ST B C 12345"⟩,
        ⟨"O2", some "1 a ST B C 12345", some "1 a ST B C 12345"⟩] Db.empty).db.linkC =
      [("O1", 1, 1)] ∧
    linkForRow
      (reconLookup [⟨"O1", some "1 A ST B C 12345", some "1 A ST B C 12345"⟩,
        ⟨"O2", some "1 a ST B C 12345", some "1 a ST B C 12345"⟩] Db.empty)
      ⟨"O2", some "1 a ST B C 12345", some "1 a ST B C 12345"⟩ = none :=
  C10_case_mismatch_breaks_linking "O1" "O2" "1 A ST B C 12345" "1 a ST B C 12345"
    ⟨"1 A ST", none, "B", "C", "12345", "United States"⟩
    ⟨"1 a ST", none, "B", "C", "12345", "United States"⟩
    rfl rfl (by decide) rfl rfl rfl rfl

/-! ## C5: address-upsert idempotence machinery -/

/-- After an upsert of `p`, the first row matching `p`'s conflict key is
`r`, and `r` carries `p`'s mutable fields. -/
def FM (st : AddrStore) (p : AddressComponents) (r : AddrRow) : Prop :=
  st.rows.find? (fun q => keyMatch q p) = some r ∧ r.line2 = p.line2 ∧ r.country = p.country

lemma find?_replaceFirst_self : ∀ (rows : List AddrRow) (pred : AddrRow → Bool) (r0 r2 : AddrRow),
    rows.find? pred = some r0 → pred r2 = true →
    (replaceFirst rows pred r2).find? pred = some r2 := by
  intro rows
  induction rows with
  | nil =>
    intro pred r0 r2 h _
    simp at h
  | cons q qs ih =>
    intro pred r0 r2 h hr2
    by_cases hq : pred q
    · unfold replaceFirst
      rw [if_pos hq]
      exact List.find?_cons_of_pos _ hr2
    · unfold replaceFirst
      rw [if_neg hq]
      rw [List.find?_cons_of_neg _ hq] at h
      rw [List.find?_cons_of_neg _ hq]
      exact ih pred r0 r2 h hr2

lemma find?_append_of_none {rows : List AddrRow} {pred : AddrRow → Bool} {x : AddrRow}
    (h : rows.find? pred = none) (hx : pred x = true) :
    (rows ++ [x]).find? pred = some x := by
  induction rows with
  | nil =>
    exact List.find?_cons_of_pos _ hx
  | cons q qs ih =>
    have hq : ¬pred q = true := by
      intro hq
      rw [List.find?_cons_of_pos _ hq] at h
      exact absurd h (by simp)
    rw [List.find?_cons_of_neg _ hq] at h
    rw [List.cons_append, List.find?_cons_of_neg _ hq]
    exact ih h

lemma find?_append_of_some {rows : List AddrRow} {pred : AddrRow → Bool} {r : AddrRow}
    (l : List AddrRow) (h : rows.find? pred = some r) :
    (rows ++ l).find? pred = some r := by
  induction rows with
  | nil => simp at h
  | cons q qs ih =>
    by_cases hq : pred q
    · rw [List.find?_cons_of_pos _ hq] at h
      rw [List.cons_append, List.find?_cons_of_pos _ hq]
      exact h
    · rw [List.find?_cons_of_neg _ hq] at h
      rw [List.cons_append, List.find?_cons_of_neg _ hq]
      exact ih h

lemma upsert_FM (st : AddrStore) (p : AddressComponents) :
    FM (st.upsert p).1 p (st.upsert p).2 := by
  cases hf : st.rows.find? (fun q => keyMatch q p) with
  | some r0 =>
    have hkey : keyMatch r0 p = true := by
      have h := List.find?_some hf
      exact h
    simp only [AddrStore.upsert, hf]
    refine ⟨?_, rfl, rfl⟩
    exact find?_replaceFirst_self st.rows _ r0 _ hf hkey
  | none =>
    simp only [AddrStore.upsert, hf]
    refine ⟨?_, rfl, rfl⟩
    apply find?_append_of_none hf
    simp [keyMatch]

lemma keyMatch_line1 {x : AddrRow} {p : AddressComponents} (h : keyMatch x p = true) :
    x.line1 = p.line1 := by
  unfold keyMatch at h
  simp only [Bool.and_eq_true, decide_eq_true_eq] at h
  exact h.1.1.1

lemma find?_replaceFirst_other : ∀ (rows : List AddrRow) (pq pp : AddrRow → Bool) (r2 r : AddrRow),
    rows.find? pp = some r → (∀ x, pq x = true → pp x = false) → pp r2 = false →
    (replaceFirst rows pq r2).find? pp = some r := by
  intro rows
  induction rows with
  | nil =>
    intro pq pp r2 r h _ _
    simp at h
  | cons q qs ih =>
    intro pq pp r2 r h hdisj hr2
    by_cases hq : pq q
    · have hqf : pp q = false := hdisj q hq
      unfold replaceFirst
      rw [if_pos hq]
      rw [List.find?_cons_of_neg _ (by simp [hqf])] at h
      rw [List.find?_cons_of_neg _ (by simp [hr2])]
      exact h
    · unfold replaceFirst
      rw [if_neg hq]
      by_cases hpq : pp q
      · rw [List.find?_cons_of_pos _ hpq] at h
        rw [List.find?_cons_of_pos _ hpq]
        exact h
      · rw [List.find?_cons_of_neg _ hpq] at h
        rw [List.find?_cons_of_neg _ hpq]
        exact ih pq pp r2 r h hdisj hr2

lemma upsert_frame {st : AddrStore} {p : AddressComponents} {r : AddrRow}
    (q : AddressComponents) (hFM : FM st p r) (hne : p.line1 ≠ q.line1) :
    FM (st.upsert q).1 p r := by
  obtain ⟨hfind, h2, h3⟩ := hFM
  have hdisj : ∀ x : AddrRow, keyMatch x q = true → keyMatch x p = false := by
    intro x hxq
    cases hxp : keyMatch x p with
    | false => rfl
    | true => exact absurd (keyMatch_line1 hxp ▸ keyMatch_line1 hxq) (fun hh => hne (by rw [← hh]))
  cases hf : st.rows.find? (fun x => keyMatch x q) with
  | some r0 =>
    have hkr0 : keyMatch r0 q = true := by
      have h := List.find?_some hf
      exact h
    simp only [AddrStore.upsert, hf]
    refine ⟨?_, h2, h3⟩
    apply find?_replaceFirst_other st.rows _ _ _ r hfind hdisj
    exact hdisj _ hkr0
  | none =>
    simp only [AddrStore.upsert, hf]
    exact ⟨find?_append_of_some _ hfind, h2, h3⟩

lemma upsertAll_frame : ∀ (qs : List AddressComponents) (st : AddrStore)
    (p : AddressComponents) (r : AddrRow),
    FM st p r → (∀ q ∈ qs, p.line1 ≠ q.line1) → FM (upsertAll st qs).1 p r := by
  intro qs
  induction qs with
  | nil =>
    intro st p r h _
    exact h
  | cons q qs ih =>
    intro st p r h hq
    exact ih _ p r (upsert_frame q h (hq q (by simp))) (fun v hv => hq v (by simp [hv]))

lemma replaceFirst_self : ∀ (rows : List AddrRow) (pred : AddrRow → Bool) (r : AddrRow),
    rows.find? pred = some r → replaceFirst rows pred r = rows := by
  intro rows
  induction rows with
  | nil =>
    intro pred r h
    simp at h
  | cons q qs ih =>
    intro pred r h
    by_cases hq : pred q
    · rw [List.find?_cons_of_pos _ hq] at h
      unfold replaceFirst
      rw [if_pos hq, Option.some.inj h]
    · rw [List.find?_cons_of_neg _ hq] at h
      unfold replaceFirst
      rw [if_neg hq, ih pred r h]

lemma upsert_idem {st : AddrStore} {p : AddressComponents} {r : AddrRow} (hFM : FM st p r) :
    st.upsert p = (st, r) := by
  obtain ⟨hfind, h2, h3⟩ := hFM
  simp only [AddrStore.upsert, hfind]
  have hr2 : ({ r with line2 := p.line2, country := p.country } : AddrRow) = r := by
    obtain ⟨rid, rl1, rl2, rc, rs2, rz, rco⟩ := r
    simp only at h2 h3
    rw [h2, h3]
  rw [hr2, replaceFirst_self st.rows _ r hfind]

lemma upsertAll_cons (st : AddrStore) (p : AddressComponents) (ps : List AddressComponents) :
    upsertAll st (p :: ps) =
      ((upsertAll (st.upsert p).1 ps).1, (st.upsert p).2 :: (upsertAll (st.upsert p).1 ps).2) :=
  rfl

lemma upsertAll_idem : ∀ (ts : List AddressComponents) (st : AddrStore),
    List.Pairwise (fun p q : AddressComponents => p.line1 ≠ q.line1) ts →
    upsertAll (upsertAll st ts).1 ts = upsertAll st ts := by
  intro ts
  induction ts with
  | nil =>
    intro st _
    rfl
  | cons t ts ih =>
    intro st h
    obtain ⟨hhead, htail⟩ := List.pairwise_cons.mp h
    have hFM2 : FM ((upsertAll (st.upsert t).1 ts).1) t ((st.upsert t).2) :=
      upsertAll_frame ts _ t _ (upsert_FM st t) (fun q hq => hhead q hq)
    have hidem := upsert_idem hFM2
    have hidem1 := congrArg Prod.fst hidem
    have hidem2 := congrArg Prod.snd hidem
    simp only at hidem1 hidem2
    have hIH : upsertAll ((upsertAll (st.upsert t).1 ts).1) ts = upsertAll (st.upsert t).1 ts :=
      ih _ htail
    show upsertAll (upsertAll (st.upsert t).1 ts).1 (t :: ts) = upsertAll st (t :: ts)
    rw [upsertAll_cons, upsertAll_cons st, hidem1, hidem2, hIH]

lemma addressTuples_fresh : ∀ (refs : List (Role × String)) (seen : List String),
    ∀ p ∈ addressTuples refs seen, pyUpper p.line1 ∉ seen := by
  intro refs
  induction refs with
  | nil =>
    intro seen p hp
    simp [addressTuples] at hp
  | cons a refs ih =>
    intro seen p hp
    obtain ⟨role, addr⟩ := a
    cases hparse : parse_address (some addr, role) with
    | none =>
      simp only [addressTuples, hparse] at hp
      exact ih seen p hp
    | some parsed =>
      simp only [addressTuples, hparse] at hp
      by_cases hseen : pyUpper parsed.line1 ∈ seen
      · rw [if_pos hseen] at hp
        exact ih seen p hp
      · rw [if_neg hseen] at hp
        rcases List.mem_cons.mp hp with rfl | hp2
        · exact hseen
        · have h2 := ih (pyUpper parsed.line1 :: seen) p hp2
          intro hmem
          exact h2 (by simp [hmem])

lemma addressTuples_pairwise : ∀ (refs : List (Role × String)) (seen : List String),
    List.Pairwise (fun p q : AddressComponents => pyUpper p.line1 ≠ pyUpper q.line1)
      (addressTuples refs seen) := by
  intro refs
  induction refs with
  | nil =>
    intro seen
    simp [addressTuples]
  | cons a refs ih =>
    intro seen
    obtain ⟨role, addr⟩ := a
    cases hparse : parse_address (some addr, role) with
    | none =>
      simp only [addressTuples, hparse]
      exact ih seen
    | some parsed =>
      simp only [addressTuples, hparse]
      by_cases hseen : pyUpper parsed.line1 ∈ seen
      · rw [if_pos hseen]
        exact ih seen
      · rw [if_neg hseen]
        refine List.pairwise_cons.mpr ⟨?_, ih _⟩
        intro q hq heq
        have h2 := addressTuples_fresh refs _ q hq
        exact h2 (by rw [← heq]; exact List.mem_cons_self _ _)

lemma reconTuples_pairwise_line1 (df : List OrderRow) :
    List.Pairwise (fun p q : AddressComponents => p.line1 ≠ q.line1) (reconTuples df) := by
  apply (addressTuples_pairwise (collectAddresses df) []).imp
  intro a b hab heq
  exact hab (by rw [heq])

/-! ## C5: link-upsert idempotence machinery -/

/-- The order ids of a link table. -/
def linkKeys (L : List Link) : List String :=
  L.map (fun e => e.1)

/-- Lookup of a link row by order id (first match). -/
def linkGet (L : List Link) (o : String) : Option (Nat × Nat) :=
  (L.find? (fun e => e.1 == o)).map (fun e => e.2)

/-- The last value written for an order id by a batch, if any. -/
def lastVal : List Link → String → Option (Nat × Nat)
  | [], _ => none
  | d :: D, o =>
    match lastVal D o with
    | some v => some v
    | none => if d.1 = o then some d.2 else none

lemma linkKeys_upsertLink (L : List Link) (l : Link) :
    linkKeys (upsertLink L l) =
      if l.1 ∈ linkKeys L then linkKeys L else linkKeys L ++ [l.1] := by
  induction L with
  | nil => simp [upsertLink, linkKeys]
  | cons e es ih =>
    by_cases he : e.1 = l.1
    · unfold upsertLink
      rw [if_pos he]
      simp [linkKeys, he]
    · unfold upsertLink
      rw [if_neg he]
      show e.1 :: linkKeys (upsertLink es l) = _
      rw [ih]
      by_cases hm : l.1 ∈ linkKeys es
      · rw [if_pos hm, if_pos (show l.1 ∈ linkKeys (e :: es) from List.mem_cons_of_mem _ hm)]
        rfl
      · rw [if_neg hm, if_neg ?_]
        · rfl
        · simp only [linkKeys, List.map_cons, List.mem_cons]
          push_neg
          exact ⟨fun hh => he (by rw [hh]), hm⟩
  
lemma upsertLinks_cons (L : List Link) (d : Link) (D : List Link) :
    upsertLinks L (d :: D) = upsertLinks (upsertLink L d) D := rfl

lemma upsertLinks_nodup : ∀ (D L : List Link),
    (linkKeys L).Nodup → (linkKeys (upsertLinks L D)).Nodup := by
  intro D
  induction D with
  | nil =>
    intro L h
    exact h
  | cons d D ih =>
    intro L h
    rw [upsertLinks_cons]
    apply ih
    rw [linkKeys_upsertLink]
    by_cases hm : d.1 ∈ linkKeys L
    · rw [if_pos hm]
      exact h
    · rw [if_neg hm]
      simp [List.nodup_append, h, hm]

lemma mem_keys_upsertLink_of_mem (L : List Link) (l : Link) {o : String}
    (h : o ∈ linkKeys L) : o ∈ linkKeys (upsertLink L l) := by
  rw [linkKeys_upsertLink]
  by_cases hm : l.1 ∈ linkKeys L
  · rw [if_pos hm]
    exact h
  · rw [if_neg hm]
    simp [h]

lemma mem_keys_upsertLink_self (L : List Link) (l : Link) :
    l.1 ∈ linkKeys (upsertLink L l) := by
  rw [linkKeys_upsertLink]
  by_cases hm : l.1 ∈ linkKeys L
  · rw [if_pos hm]
    exact hm
  · rw [if_neg hm]
    simp

lemma mem_keys_upsertLinks_of_mem : ∀ (D L : List Link) {o : String},
    o ∈ linkKeys L → o ∈ linkKeys (upsertLinks L D) := by
  intro D
  induction D with
  | nil =>
    intro L o h
    exact h
  | cons d D ih =>
    intro L o h
    rw [upsertLinks_cons]
    exact ih _ (mem_keys_upsertLink_of_mem L d h)

lemma mem_keys_upsertLinks_self : ∀ (D L : List Link), ∀ d ∈ D, d.1 ∈ linkKeys (upsertLinks L D) := by
  intro D
  induction D with
  | nil =>
    intro L d hd
    simp at hd
  | cons d0 D ih =>
    intro L d hd
    rcases List.mem_cons.mp hd with rfl | hd2
    · rw [upsertLinks_cons]
      exact mem_keys_upsertLinks_of_mem D _ (mem_keys_upsertLink_self L d)
    · rw [upsertLinks_cons]
      exact ih _ d hd2

lemma linkGet_upsertLink (L : List Link) (l : Link) (o : String) :
    linkGet (upsertLink L l) o = if o = l.1 then some l.2 else linkGet L o := by
  induction L with
  | nil =>
    show linkGet [l] o = _
    by_cases ho : o = l.1
    · rw [if_pos ho]
      simp [linkGet, List.find?_cons_of_pos, ho]
    · rw [if_neg ho]
      have : (l.1 == o) = false := by
        simp [beq_iff_eq]
        intro hh
        exact ho (by rw [hh])
      simp [linkGet, List.find?_cons_of_neg, this]
  | cons e es ih =>
    by_cases he : e.1 = l.1
    · unfold upsertLink
      rw [if_pos he]
      by_cases ho : o = l.1
      · rw [if_pos ho]
        simp [linkGet, List.find?_cons_of_pos, ho]
      · rw [if_neg ho]
        have h1 : (l.1 == o) = false := by
          simp only [beq_eq_false_iff_ne, ne_eq]
          intro hh
          exact ho (by rw [hh])
        have h2 : (e.1 == o) = false := by
          simp only [beq_eq_false_iff_ne, ne_eq]
          intro hh
          exact ho (by rw [← hh, he])
        show linkGet (l :: es) o = linkGet (e :: es) o
        simp [linkGet, List.find?_cons_of_neg, h1, h2]
    · unfold upsertLink
      rw [if_neg he]
      show linkGet (e :: upsertLink es l) o = _
      by_cases hoe : e.1 = o
      · have ho : ¬o = l.1 := by
          intro hh
          exact he (by rw [hoe, hh])
        rw [if_neg ho]
        simp [linkGet, List.find?_cons_of_pos, hoe]
      · have hb : (e.1 == o) = false := by simp [hoe]
        have hL : linkGet (e :: upsertLink es l) o = linkGet (upsertLink es l) o := by
          simp only [linkGet, List.find?_cons, hb]
        have hR : linkGet (e :: es) o = linkGet es o := by
          simp only [linkGet, List.find?_cons, hb]
        rw [hL, hR]
        exact ih

lemma linkGet_upsertLinks : ∀ (D L : List Link) (o : String),
    linkGet (upsertLinks L D) o =
      match lastVal D o with
      | some v => some v
      | none => linkGet L o := by
  intro D
  induction D with
  | nil =>
    intro L o
    rfl
  | cons d D ih =>
    intro L o
    rw [upsertLinks_cons, ih (upsertLink L d) o, linkGet_upsertLink]
    cases hlv : lastVal D o with
    | some v => simp [lastVal, hlv]
    | none =>
      by_cases ho : o = d.1
      · subst ho
        simp [lastVal, hlv]
      · have hd : ¬d.1 = o := fun hh => ho (by rw [hh])
        simp [lastVal, hlv, ho, hd]

lemma linkGet_of_mem : ∀ (L : List Link), (linkKeys L).Nodup → ∀ e ∈ L, linkGet L e.1 = some e.2 := by
  intro L
  induction L with
  | nil =>
    intro _ e he
    simp at he
  | cons x L ih =>
    intro hnd e he
    have hx : x.1 ∉ linkKeys L := (List.nodup_cons.mp hnd).1
    rcases List.mem_cons.mp he with rfl | he2
    · have hb : (e.1 == e.1) = true := by simp
      simp only [linkGet, List.find?_cons, hb]
      rfl
    · have hne : (x.1 == e.1) = false := by
        simp only [beq_eq_false_iff_ne, ne_eq]
        intro hh
        exact hx (hh ▸ List.mem_map_of_mem _ he2)
      simp only [linkGet, List.find?_cons, hne]
      exact ih (List.nodup_cons.mp hnd).2 e he2

lemma upsertLink_mem : ∀ (L : List Link) (d : Link), (linkKeys L).Nodup → d.1 ∈ linkKeys L →
    upsertLink L d = L.map (fun e => if e.1 = d.1 then d else e) := by
  intro L
  induction L with
  | nil =>
    intro d _ hmem
    simp [linkKeys] at hmem
  | cons e es ih =>
    intro d hnd hmem
    by_cases he : e.1 = d.1
    · unfold upsertLink
      rw [if_pos he]
      have hnotin : d.1 ∉ linkKeys es := he ▸ (List.nodup_cons.mp hnd).1
      have hmap : es.map (fun x => if x.1 = d.1 then d else x) = es := by
        conv_rhs => rw [← List.map_id es]
        apply List.map_congr_left
        intro x hx
        rw [if_neg]
        · rfl
        · intro hx1
          exact hnotin (hx1 ▸ List.mem_map_of_mem _ hx)
      rw [List.map_cons, if_pos he, hmap]
    · unfold upsertLink
      rw [if_neg he]
      have hmem2 : d.1 ∈ linkKeys es := by
        rcases List.mem_cons.mp hmem with hh | hh
        · exact absurd hh.symm he
        · exact hh
      rw [ih d (List.nodup_cons.mp hnd).2 hmem2, List.map_cons, if_neg he]

lemma upsertLinks_closed : ∀ (D L : List Link),
    (∀ d ∈ D, d.1 ∈ linkKeys L) → (linkKeys L).Nodup →
    upsertLinks L D = L.map (fun e =>
      match lastVal D e.1 with
      | some v => (e.1, v)
      | none => e) := by
  intro D
  induction D with
  | nil =>
    intro L _ _
    show L = L.map _
    conv_lhs => rw [← List.map_id L]
    apply List.map_congr_left
    intro e _
    rfl
  | cons d D ih =>
    intro L hsub hnd
    rw [upsertLinks_cons]
    have hd : d.1 ∈ linkKeys L := hsub d (by simp)
    have hkeys : linkKeys (upsertLink L d) = linkKeys L := by
      rw [upsertLink_mem L d hnd hd]
      unfold linkKeys
      rw [List.map_map]
      apply List.map_congr_left
      intro x _
      by_cases hx : x.1 = d.1
      · simp [hx]
      · simp [hx]
    have hsub2 : ∀ e ∈ D, e.1 ∈ linkKeys (upsertLink L d) := by
      intro e he
      rw [hkeys]
      exact hsub e (by simp [he])
    have hnd2 : (linkKeys (upsertLink L d)).Nodup := by
      rw [hkeys]
      exact hnd
    rw [ih (upsertLink L d) hsub2 hnd2, upsertLink_mem L d hnd hd, List.map_map]
    apply List.map_congr_left
    intro e _
    show (match lastVal D (if e.1 = d.1 then d else e).1 with
      | some v => ((if e.1 = d.1 then d else e).1, v)
      | none => (if e.1 = d.1 then d else e)) = _
    by_cases h1 : e.1 = d.1
    · rw [if_pos h1]
      cases hlv : lastVal D d.1 with
      | some v =>
        have hlv2 : lastVal (d :: D) e.1 = some v := by
          rw [h1]
          simp [lastVal, hlv]
        rw [hlv2]
        simp [h1]
      | none =>
        have hlv2 : lastVal (d :: D) e.1 = some d.2 := by
          rw [h1]
          simp [lastVal, hlv]
        rw [hlv2]
        show d = (e.1, d.2)
        rw [h1]
    · rw [if_neg h1]
      have hd1 : ¬d.1 = e.1 := fun hh => h1 (by rw [hh])
      cases hlv : lastVal D e.1 with
      | some v =>
        have hlv2 : lastVal (d :: D) e.1 = some v := by simp [lastVal, hlv]
        rw [hlv2]
      | none =>
        have hlv2 : lastVal (d :: D) e.1 = none := by simp [lastVal, hlv, hd1]
        rw [hlv2]

lemma upsertLinks_idem_nil (D : List Link) :
    upsertLinks (upsertLinks [] D) D = upsertLinks [] D := by
  have hnd : (linkKeys (upsertLinks [] D)).Nodup := upsertLinks_nodup D [] (by simp [linkKeys])
  have hsub : ∀ d ∈ D, d.1 ∈ linkKeys (upsertLinks [] D) := mem_keys_upsertLinks_self D []
  rw [upsertLinks_closed D _ hsub hnd]
  conv_rhs => rw [← List.map_id (upsertLinks [] D)]
  apply List.map_congr_left
  intro e he
  have hget := linkGet_of_mem _ hnd e he
  have hGL := linkGet_upsertLinks D [] e.1
  rw [hget] at hGL
  cases hlv : lastVal D e.1 with
  | some v =>
    rw [hlv] at hGL
    have hv : e.2 = v := by
      have h2 : some e.2 = some v := hGL
      exact Option.some.inj h2
    show (e.1, v) = id e
    rw [← hv]
    exact Prod.mk.eta
  | none =>
    rw [hlv] at hGL
    exact absurd hGL (by simp [linkGet])

/-- C5: `process_addresses` is idempotent — running it a second time on
the same row set against the store produced by the first run returns the
same address ids (RETURNING rows), emits the same link set, and leaves
the store unchanged (no duplicate address rows, no duplicate link rows). -/
theorem C5_reconcile_idempotent :
    ∀ df : List OrderRow, runOnce df (runOnce df Db.empty).db = runOnce df Db.empty := by
  intro df
  have hpair := reconTuples_pairwise_line1 df
  have hidem : upsertAll (upsertAll Db.empty.addrW (reconTuples df)).1 (reconTuples df) =
      upsertAll Db.empty.addrW (reconTuples df) :=
    upsertAll_idem (reconTuples df) Db.empty.addrW hpair
  by_cases h1 : reconTuples df = []
  · rw [show runOnce df Db.empty = ⟨false, Db.empty, [], []⟩ from process_addresses_nil h1]
    show runOnce df Db.empty = ⟨false, Db.empty, [], []⟩
    exact process_addresses_nil h1
  · by_cases h2 : reconData df Db.empty = []
    · rw [runOnce_nolinks h1 h2]
      show runOnce df (reconDb1 df Db.empty) =
        ⟨false, reconDb1 df Db.empty, (reconUp df Db.empty).2, []⟩
      have hU1 : reconUp df (reconDb1 df Db.empty) = reconUp df Db.empty := hidem
      have hL1 : reconLookup df (reconDb1 df Db.empty) = reconLookup df Db.empty := by
        unfold reconLookup
        rw [hU1]
      have hD1 : reconData df (reconDb1 df Db.empty) = reconData df Db.empty := by
        unfold reconData
        rw [hL1]
      have h2b : reconData df (reconDb1 df Db.empty) = [] := by
        rw [hD1]
        exact h2
      rw [runOnce_nolinks h1 h2b]
      have hDb1 : reconDb1 df (reconDb1 df Db.empty) = reconDb1 df Db.empty := by
        have e1 : reconDb1 df (reconDb1 df Db.empty) = Db.commit ⟨(reconDb1 df Db.empty).addrC,
            (reconDb1 df Db.empty).linkC, (reconUp df (reconDb1 df Db.empty)).1,
            (reconDb1 df Db.empty).linkW⟩ := rfl
        rw [e1, hU1]
        rfl
      rw [hDb1, hU1]
    · rw [runOnce_links h1 h2]
      show runOnce df (Db.commit ⟨(reconDb1 df Db.empty).addrC, (reconDb1 df Db.empty).linkC,
          (reconDb1 df Db.empty).addrW,
          upsertLinks (reconDb1 df Db.empty).linkW (reconData df Db.empty)⟩) =
        ⟨false, Db.commit ⟨(reconDb1 df Db.empty).addrC, (reconDb1 df Db.empty).linkC,
          (reconDb1 df Db.empty).addrW,
          upsertLinks (reconDb1 df Db.empty).linkW (reconData df Db.empty)⟩,
          (reconUp df Db.empty).2, reconData df Db.empty⟩
      set db2 : Db := Db.commit ⟨(reconDb1 df Db.empty).addrC, (reconDb1 df Db.empty).linkC,
        (reconDb1 df Db.empty).addrW,
        upsertLinks (reconDb1 df Db.empty).linkW (reconData df Db.empty)⟩ with hdb2
      have hU2 : reconUp df db2 = reconUp df Db.empty := hidem
      have hL2 : reconLookup df db2 = reconLookup df Db.empty := by
        unfold reconLookup
        rw [hU2]
      have hD2 : reconData df db2 = reconData df Db.empty := by
        unfold reconData
        rw [hL2]
      have hD2ne : reconData df db2 ≠ [] := by
        rw [hD2]
        exact h2
      rw [runOnce_links h1 hD2ne]
      have hDb2 : reconDb1 df db2 = db2 := by
        have e1 : reconDb1 df db2 = Db.commit ⟨db2.addrC, db2.linkC, (reconUp df db2).1,
            db2.linkW⟩ := rfl
        rw [e1, hU2]
        rfl
      have hLK : upsertLinks db2.linkW (reconData df Db.empty) = db2.linkW :=
        upsertLinks_idem_nil (reconData df Db.empty)
      rw [hDb2, hD2, hU2, hLK]
      rfl
